import Mathlib

/-!
Verification of the order-book matching engine (src/order_book.rs) and the
event persistence adapter (src/database.rs) of orderbook-api-rs.

Shallow embedding conventions:
* `u32` quantities become `Nat`; the only arithmetic on them is the
  subtraction in the two partial-fill arms, and both arms are guarded by the
  comparison that makes the subtraction non-underflowing, so `Nat`
  subtraction agrees with `u32` subtraction there and no overflow can occur
  (quantities only ever shrink).
* `BigDecimal` prices become `Rat`: the code only compares and copies prices,
  and decimal values embed exactly into ℚ with the same order.
* `DateTime<Utc>` timestamps become `Nat` (only their linear order is used);
  `Uuid` ids become `Nat` (only equality is used).  `Utc::now()` and
  `Uuid::new_v4()` are modelled by explicit `ts` / fresh-id parameters.
* `BTreeSet<Rc<Order>>` becomes a list kept sorted by the element comparator;
  `insert` keeps the old element on a comparator tie (as `BTreeSet::insert`
  does) and `remove` deletes the comparator-equal element.
* `HashMap<Uuid, Rc<Order>>` becomes an association list with
  overwrite-on-insert; only lookup, insert, remove and size are used.
* a Rust `panic!` becomes `Option.none` at the operation that can panic.
* the `OrderBook.ts` watermark field is write-only in the source (assigned,
  never read), so it is omitted from the state.
-/

/-- Side of an order: `OrderType` in src/order_book.rs. -/
inductive OrderType
  | sell
  | buy
deriving DecidableEq, Repr

/-- `Order` in src/order_book.rs. -/
structure Order where
  order_type : OrderType
  id : Nat
  ts : Nat
  quantity : Nat
  price : Rat
deriving DecidableEq, Repr

/-- `Event` in src/order_book.rs.  `state` carries the two book snapshots
(`OrderBookState { buy, sell }`). -/
inductive Event
  | filled (ts : Nat) (order : Order) (counterpart : Order)
  | accepted (ts : Nat) (order : Order)
  | canceled (ts : Nat) (order : Order)
  | rejected (ts : Nat) (reason : String)
  | state (buy : List Order) (sell : List Order)
deriving DecidableEq, Repr

/-- `Ordering::reverse` from Rust's standard library. -/
def reverseOrd : Ordering → Ordering
  | .lt => .gt
  | .eq => .eq
  | .gt => .lt

/-- Three-way comparison on `Rat`, standing for `BigDecimal::cmp`. -/
def cmpRat (a b : Rat) : Ordering :=
  if a < b then .lt else if b < a then .gt else .eq

/-- Three-way comparison on `Nat`, standing for `u32::cmp` / `DateTime::cmp`. -/
def cmpNat (a b : Nat) : Ordering :=
  if a < b then .lt else if b < a then .gt else .eq

/-- `impl Ord for Order` (src/order_book.rs lines 118-131): a Sell compares by
ascending price then ascending timestamp; a Buy by reversed price comparison
then ascending timestamp.  The branch is chosen by `self.order_type`, and
there is no further tiebreaker. -/
def Order.cmp (a b : Order) : Ordering :=
  match a.order_type with
  | .sell =>
    match cmpRat a.price b.price with
    | .eq => cmpNat a.ts b.ts
    | ord => ord
  | .buy =>
    match reverseOrd (cmpRat a.price b.price) with
    | .eq => cmpNat a.ts b.ts
    | ord => ord

/-- `Order::sell(ts, quantity, price)`; the fresh `Uuid` is the explicit
`freshId` argument. -/
def Order.sell (freshId ts quantity : Nat) (price : Rat) : Order :=
  { order_type := OrderType.sell, id := freshId, ts := ts,
    quantity := quantity, price := price }

/-- `Order::buy(ts, quantity, price)`; the fresh `Uuid` is the explicit
`freshId` argument. -/
def Order.buy (freshId ts quantity : Nat) (price : Rat) : Order :=
  { order_type := OrderType.buy, id := freshId, ts := ts,
    quantity := quantity, price := price }

/-- `BTreeSet::insert` on the sorted element sequence: place the new element
before the first strictly greater one; on a comparator tie the set keeps the
element already present and the new one is discarded. -/
def btreeInsert (x : Order) : List Order → List Order
  | [] => [x]
  | y :: ys =>
    match Order.cmp x y with
    | .lt => x :: y :: ys
    | .eq => y :: ys
    | .gt => y :: btreeInsert x ys

/-- `BTreeSet::remove` on the sorted element sequence: delete the
comparator-equal element (a set holds at most one per equivalence class). -/
def btreeRemove (q : Order) (l : List Order) : List Order :=
  l.filter fun e =>
    match Order.cmp q e with
    | .eq => false
    | _ => true

/-- The id→order side index (`HashMap<Uuid, Rc<Order>>`). -/
abbrev Index := List (Nat × Order)

/-- `HashMap::get`. -/
def indexLookup (id : Nat) : Index → Option Order
  | [] => none
  | (k, o) :: rest => if k = id then some o else indexLookup id rest

/-- `HashMap::remove`. -/
def indexRemove (id : Nat) (ix : Index) : Index :=
  ix.filter fun p => p.1 != id

/-- `HashMap::insert` (overwrites any binding of the same key). -/
def indexInsert (id : Nat) (o : Order) (ix : Index) : Index :=
  (id, o) :: indexRemove id ix

/-- Result of `OrderBook::process_order`: the events pushed and the final
values of the four structures the function mutates. -/
structure MatchResult where
  events : List Event
  cpBook : List Order
  cpIndex : Index
  srcBook : List Order
  srcIndex : Index
deriving DecidableEq, Repr

theorem btreeRemove_length_le (q : Order) (l : List Order) :
    (btreeRemove q l).length ≤ l.length :=
  List.length_filter_le _ l

/-- `OrderBook::process_order` (src/order_book.rs lines 238-309), translated
arm for arm:
* `Accepted` is pushed first, unconditionally;
* `counterpart_book.pop_first()` removes the head in every arm, including the
  catch-all arm (empty book or guard `order.price <= counterpart.price`
  false), which inserts the incoming into its own side and does not restore
  the popped head;
* on `Less` the counterpart is replaced by a reduced-quantity copy;
* on `Greater` the code removes `&order` from the counterpart book (a
  comparator-based removal keyed on the incoming, not the popped head) and
  `order.id` from the counterpart index, then recurses on the remainder;
* on `Equal` only the `Filled` event is pushed. -/
def processOrder (ts : Nat) (order : Order) (cpBook : List Order)
    (cpIndex : Index) (srcBook : List Order) (srcIndex : Index) : MatchResult :=
  match cpBook with
  | [] =>
    ⟨[Event.accepted ts order], [], cpIndex,
      btreeInsert order srcBook, indexInsert order.id order srcIndex⟩
  | counterpart :: rest =>
    if order.price ≤ counterpart.price then
      match cmpNat order.quantity counterpart.quantity with
      | .lt =>
        let newCounterpart : Order :=
          { order_type := counterpart.order_type, id := counterpart.id,
            ts := counterpart.ts, price := counterpart.price,
            quantity := counterpart.quantity - order.quantity }
        ⟨[Event.accepted ts order, Event.filled ts order counterpart],
          btreeInsert newCounterpart rest,
          indexInsert newCounterpart.id newCounterpart cpIndex,
          srcBook, srcIndex⟩
      | .gt =>
        let newOrder : Order :=
          { order_type := order.order_type, id := order.id, ts := order.ts,
            price := order.price,
            quantity := order.quantity - counterpart.quantity }
        let r := processOrder ts newOrder (btreeRemove order rest)
          (indexRemove order.id cpIndex) srcBook srcIndex
        ⟨Event.accepted ts order :: Event.filled ts order counterpart :: r.events,
          r.cpBook, r.cpIndex, r.srcBook, r.srcIndex⟩
      | .eq =>
        ⟨[Event.accepted ts order, Event.filled ts order counterpart],
          rest, cpIndex, srcBook, srcIndex⟩
    else
      ⟨[Event.accepted ts order], rest, cpIndex,
        btreeInsert order srcBook, indexInsert order.id order srcIndex⟩
termination_by cpBook.length
decreasing_by
  exact Nat.lt_succ_of_le (btreeRemove_length_le _ _)

/-- `OrderBook` (src/order_book.rs lines 155-163) minus the write-only `ts`
watermark and the ticker string. -/
structure OrderBook where
  sell_book : List Order
  sell_index : Index
  buy_book : List Order
  buy_index : Index
deriving DecidableEq, Repr

/-- `OrderBook::new`. -/
def OrderBook.empty : OrderBook := ⟨[], [], [], []⟩

/-- `OrderBook::process_sell_order`: counterpart side is the buy side. -/
def processSellOrder (ts : Nat) (b : OrderBook) (order : Order) :
    List Event × OrderBook :=
  let r := processOrder ts order b.buy_book b.buy_index b.sell_book b.sell_index
  (r.events, ⟨r.srcBook, r.srcIndex, r.cpBook, r.cpIndex⟩)

/-- `OrderBook::process_buy_order`: counterpart side is the sell side. -/
def processBuyOrder (ts : Nat) (b : OrderBook) (order : Order) :
    List Event × OrderBook :=
  let r := processOrder ts order b.sell_book b.sell_index b.buy_book b.buy_index
  (r.events, ⟨r.cpBook, r.cpIndex, r.srcBook, r.srcIndex⟩)

/-- The reason string of `process_cancel_order` / `process_update_order`. -/
def notFoundReason (id : Nat) : String :=
  "Order " ++ toString id ++ " not found in sell or buy side"

/-- `OrderBook::process_cancel_order` (src/order_book.rs lines 311-333).
`none` models the `panic!` of the both-sides arm. -/
def processCancelOrder (ts id : Nat) (b : OrderBook) :
    Option (List Event × OrderBook) :=
  match indexLookup id b.sell_index, indexLookup id b.buy_index with
  | some sellOrder, none =>
    some ([Event.canceled ts sellOrder],
      { b with sell_book := btreeRemove sellOrder b.sell_book,
               sell_index := indexRemove id b.sell_index })
  | none, some buyOrder =>
    some ([Event.canceled ts buyOrder],
      { b with buy_book := btreeRemove buyOrder b.buy_book,
               buy_index := indexRemove id b.buy_index })
  | none, none => some ([Event.rejected ts (notFoundReason id)], b)
  | some _, some _ => none

/-- `OrderBook::process_update_order` (src/order_book.rs lines 335-361):
cancel, then drive the matching procedure with a fresh order on the same
side.  `none` models the `panic!` of the both-sides arm. -/
def processUpdateOrder (ts freshId id newQuantity : Nat) (newPrice : Rat)
    (b : OrderBook) : Option (List Event × OrderBook) :=
  match indexLookup id b.sell_index, indexLookup id b.buy_index with
  | some _, none =>
    match processCancelOrder ts id b with
    | some (ev1, b1) =>
      let r := processSellOrder ts b1 (Order.sell freshId ts newQuantity newPrice)
      some (ev1 ++ r.1, r.2)
    | none => none
  | none, some _ =>
    match processCancelOrder ts id b with
    | some (ev1, b1) =>
      let r := processBuyOrder ts b1 (Order.buy freshId ts newQuantity newPrice)
      some (ev1 ++ r.1, r.2)
    | none => none
  | none, none => some ([Event.rejected ts (notFoundReason id)], b)
  | some _, some _ => none

/-- `Command` in src/order_book.rs. -/
inductive Command
  | buy (quantity : Nat) (price : Rat)
  | sell (quantity : Nat) (price : Rat)
  | cancel (id : Nat)
  | update (id : Nat) (new_quantity : Nat) (new_price : Rat)
  | getState
deriving DecidableEq, Repr

/-- `OrderBook::process`: one command, one event batch.  `ts` is the single
`Utc::now()` sample of the command and `freshId` the `Uuid` any minted order
receives. -/
def process (ts freshId : Nat) (b : OrderBook) (command : Command) :
    Option (List Event × OrderBook) :=
  match command with
  | .buy quantity price =>
    some (processBuyOrder ts b (Order.buy freshId ts quantity price))
  | .sell quantity price =>
    some (processSellOrder ts b (Order.sell freshId ts quantity price))
  | .cancel id => processCancelOrder ts id b
  | .update id newQuantity newPrice =>
    processUpdateOrder ts freshId id newQuantity newPrice b
  | .getState => some ([Event.state b.buy_book b.sell_book], b)

/-- Run a command sequence (each with its timestamp and fresh id) from a
book; `none` as soon as one command panics. -/
def runCommands : List (Nat × Nat × Command) → OrderBook → Option OrderBook
  | [], b => some b
  | (ts, freshId, c) :: rest, b =>
    match process ts freshId b c with
    | some (_, b1) => runCommands rest b1
    | none => none

/-! ## Persistence adapter (src/database.rs) -/

/-- `EventType` in src/database.rs (serialized lowercase). -/
inductive EventType
  | buy
  | sell
  | fill
  | cancel
deriving DecidableEq, Repr

/-- Rust's `u32 as i32` cast (wrapping). -/
def u32AsI32 (n : Nat) : Int :=
  ((n : Int) + 2 ^ 31) % 2 ^ 32 - 2 ^ 31

/-- `EventRow` in src/database.rs. -/
structure EventRow where
  ts : Nat
  event_type : EventType
  order_id : Nat
  order_quantity : Option Int
  order_price : Option Rat
  counterpart_id : Option Nat
  counterpart_quantity : Option Int
  counterpart_price : Option Rat
deriving DecidableEq, Repr

/-- `impl TryFrom<&Event> for EventRow` (src/database.rs lines 54-103);
`none` is the `Err(())` of the `Rejected` and `State` arms. -/
def eventRowTryFrom : Event → Option EventRow
  | .filled ts order counterpart =>
    some ⟨ts, EventType.fill, order.id,
      some (u32AsI32 order.quantity), some order.price,
      some counterpart.id, some (u32AsI32 counterpart.quantity),
      some counterpart.price⟩
  | .accepted ts order =>
    let event_type := match order.order_type with
      | .sell => EventType.sell
      | .buy => EventType.buy
    some ⟨ts, event_type, order.id,
      some (u32AsI32 order.quantity), some order.price, none, none, none⟩
  | .canceled ts order =>
    some ⟨ts, EventType.cancel, order.id, none, none, none, none, none⟩
  | .rejected _ _ => none
  | .state _ _ => none

/-- The row batch `save_events` builds and writes
(src/database.rs line 112): `events.iter().filter_map(try_into().ok())`. -/
def saveEventRows (events : List Event) : List EventRow :=
  events.filterMap eventRowTryFrom

/-- Modelled from the spec: the persistence filter of section 4.4 — exactly
`Accepted`, `Filled` and `Canceled` events are persisted. -/
def isPersisted : Event → Bool
  | .accepted _ _ => true
  | .filled _ _ _ => true
  | .canceled _ _ => true
  | .rejected _ _ => false
  | .state _ _ => false

/-- Modelled from the spec: the event-type column of section 6 — "buy" or
"sell" by the side of an Accepted event, "fill" for Filled, "cancel" for
Canceled, nothing for the transient variants. -/
def expectedEventType : Event → Option EventType
  | .accepted _ order =>
    some (match order.order_type with
      | .buy => EventType.buy
      | .sell => EventType.sell)
  | .filled _ _ _ => some EventType.fill
  | .canceled _ _ => some EventType.cancel
  | .rejected _ _ => none
  | .state _ _ => none

/-! ## Derived views of a book used by the claims -/

/-- Best bid: the buy side is sorted descending by price, so its head is the
highest-priced buy. -/
def bestBuyPrice (b : OrderBook) : Option Rat :=
  b.buy_book.head?.map Order.price

/-- Best ask: the sell side is sorted ascending by price, so its head is the
lowest-priced sell. -/
def bestSellPrice (b : OrderBook) : Option Rat :=
  b.sell_book.head?.map Order.price

/-- The no-crossing invariant of the spec (section 3 invariant 5 / P3):
best buy price strictly below best sell price, or a side empty. -/
def noCrossing (b : OrderBook) : Bool :=
  match bestBuyPrice b, bestSellPrice b with
  | some pb, some ps => decide (pb < ps)
  | _, _ => true

/-- Strictly positive quantity and price. -/
def posOrder (o : Order) : Prop := 0 < o.quantity ∧ 0 < o.price

/-- Every order of the list has strictly positive quantity and price. -/
def posList (l : List Order) : Prop := ∀ o ∈ l, posOrder o

/-- Every order resting in either side collection is strictly positive. -/
def posBook (b : OrderBook) : Prop := posList b.sell_book ∧ posList b.buy_book

/-- A command whose minted order (if any) has strictly positive quantity and
price. -/
def cmdPositive : Command → Prop
  | .buy quantity price => 0 < quantity ∧ 0 < price
  | .sell quantity price => 0 < quantity ∧ 0 < price
  | .update _ newQuantity newPrice => 0 < newQuantity ∧ 0 < newPrice
  | .cancel _ => True
  | .getState => True

/-- Number of Accepted events in a batch. -/
def countAccepted (es : List Event) : Nat :=
  (es.filter fun e =>
    match e with
    | .accepted _ _ => true
    | _ => false).length

/-- Number of Filled events consuming the whole counterpart with a remainder
left on the incoming (the Greater arm of the match). -/
def countGreaterFills (es : List Event) : Nat :=
  (es.filter fun e =>
    match e with
    | .filled _ order counterpart => decide (counterpart.quantity < order.quantity)
    | _ => false).length

/-! ## Unfolding lemmas for the matching recursion -/

theorem processOrder_nil (ts : Nat) (o : Order) (ci : Index)
    (sb : List Order) (si : Index) :
    processOrder ts o [] ci sb si =
      ⟨[Event.accepted ts o], [], ci,
        btreeInsert o sb, indexInsert o.id o si⟩ := by
  simp [processOrder]

theorem processOrder_noCross (ts : Nat) (o c : Order) (rest : List Order)
    (ci : Index) (sb : List Order) (si : Index)
    (h : ¬ o.price ≤ c.price) :
    processOrder ts o (c :: rest) ci sb si =
      ⟨[Event.accepted ts o], rest, ci,
        btreeInsert o sb, indexInsert o.id o si⟩ := by
  simp [processOrder, h]

theorem processOrder_lt (ts : Nat) (o c : Order) (rest : List Order)
    (ci : Index) (sb : List Order) (si : Index)
    (h1 : o.price ≤ c.price) (h2 : o.quantity < c.quantity) :
    processOrder ts o (c :: rest) ci sb si =
      ⟨[Event.accepted ts o, Event.filled ts o c],
        btreeInsert
          ⟨c.order_type, c.id, c.ts, c.quantity - o.quantity, c.price⟩ rest,
        indexInsert c.id
          ⟨c.order_type, c.id, c.ts, c.quantity - o.quantity, c.price⟩ ci,
        sb, si⟩ := by
  simp [processOrder, h1, cmpNat, h2]

theorem processOrder_eqQty (ts : Nat) (o c : Order) (rest : List Order)
    (ci : Index) (sb : List Order) (si : Index)
    (h1 : o.price ≤ c.price) (h2 : o.quantity = c.quantity) :
    processOrder ts o (c :: rest) ci sb si =
      ⟨[Event.accepted ts o, Event.filled ts o c], rest, ci, sb, si⟩ := by
  simp [processOrder, h1, cmpNat, h2]

theorem processOrder_gt (ts : Nat) (o c : Order) (rest : List Order)
    (ci : Index) (sb : List Order) (si : Index)
    (h1 : o.price ≤ c.price) (h2 : c.quantity < o.quantity) :
    processOrder ts o (c :: rest) ci sb si =
      (let r := processOrder ts
        ⟨o.order_type, o.id, o.ts, o.quantity - c.quantity, o.price⟩
        (btreeRemove o rest) (indexRemove o.id ci) sb si
      ⟨Event.accepted ts o :: Event.filled ts o c :: r.events,
        r.cpBook, r.cpIndex, r.srcBook, r.srcIndex⟩) := by
  have h3 : ¬ o.quantity < c.quantity := Nat.not_lt.mpr (Nat.le_of_lt h2)
  simp [processOrder, h1, cmpNat, h2, h3]


/-! ## Comparator lemmas -/

theorem cmpRat_eq_iff (a b : Rat) : cmpRat a b = .eq ↔ a = b := by
  unfold cmpRat
  split_ifs with h1 h2
  · simp only [reduceCtorEq, false_iff]
    exact fun h => absurd h (ne_of_lt h1)
  · simp only [reduceCtorEq, false_iff]
    exact fun h => absurd h.symm (ne_of_lt h2)
  · simp only [true_iff]
    exact le_antisymm (not_lt.mp h2) (not_lt.mp h1)

theorem cmpRat_lt_iff (a b : Rat) : cmpRat a b = .lt ↔ a < b := by
  unfold cmpRat
  split_ifs with h1 h2 <;> simp [h1]

theorem cmpNat_eq_iff (a b : Nat) : cmpNat a b = .eq ↔ a = b := by
  unfold cmpNat
  split_ifs <;> simp <;> omega

theorem cmpNat_lt_iff (a b : Nat) : cmpNat a b = .lt ↔ a < b := by
  unfold cmpNat
  split_ifs <;> simp <;> omega

theorem Order.cmp_eq_iff (a b : Order) :
    Order.cmp a b = .eq ↔ a.price = b.price ∧ a.ts = b.ts := by
  unfold Order.cmp
  rcases ha : a.order_type <;>
    rcases hc : cmpRat a.price b.price <;>
      simp only [reverseOrd, reduceCtorEq, false_iff, cmpNat_eq_iff, not_and]
  · exact fun h => absurd ((cmpRat_eq_iff a.price b.price).mpr h) (by simp [hc])
  · rw [cmpRat_eq_iff] at hc
    simp [hc]
  · exact fun h => absurd ((cmpRat_eq_iff a.price b.price).mpr h) (by simp [hc])
  · exact fun h => absurd ((cmpRat_eq_iff a.price b.price).mpr h) (by simp [hc])
  · rw [cmpRat_eq_iff] at hc
    simp [hc]
  · exact fun h => absurd ((cmpRat_eq_iff a.price b.price).mpr h) (by simp [hc])

theorem Order.cmp_refl (a : Order) : Order.cmp a a = .eq :=
  (Order.cmp_eq_iff a a).mpr ⟨rfl, rfl⟩

theorem Order.cmp_lt_iff_sell (a b : Order) (ha : a.order_type = OrderType.sell) :
    Order.cmp a b = .lt ↔
      a.price < b.price ∨ (a.price = b.price ∧ a.ts < b.ts) := by
  unfold Order.cmp
  rw [ha]
  rcases hc : cmpRat a.price b.price <;> simp only [cmpNat_lt_iff]
  · rw [cmpRat_lt_iff] at hc
    simp [hc]
  · rw [cmpRat_eq_iff] at hc
    simp [hc]
  · constructor
    · intro h
      exact absurd h (by simp)
    · rintro (h | ⟨h, _⟩)
      · rw [(cmpRat_lt_iff a.price b.price).mpr h] at hc
        exact absurd hc (by simp)
      · rw [(cmpRat_eq_iff a.price b.price).mpr h] at hc
        exact absurd hc (by simp)

theorem Order.cmp_lt_iff_buy (a b : Order) (ha : a.order_type = OrderType.buy) :
    Order.cmp a b = .lt ↔
      b.price < a.price ∨ (a.price = b.price ∧ a.ts < b.ts) := by
  unfold Order.cmp
  rw [ha]
  rcases hc : cmpRat a.price b.price <;>
    simp only [reverseOrd, cmpNat_lt_iff]
  · rw [cmpRat_lt_iff] at hc
    constructor
    · intro h
      exact absurd h (by simp)
    · rintro (h | ⟨h, _⟩)
      · exact absurd hc (not_lt.mpr (le_of_lt h))
      · exact absurd hc (not_lt.mpr (le_of_eq h.symm))
  · rw [cmpRat_eq_iff] at hc
    simp [hc]
  · have h1 : ¬ a.price < b.price := by
      intro h
      rw [(cmpRat_lt_iff a.price b.price).mpr h] at hc
      exact absurd hc (by simp)
    have h2 : ¬ a.price = b.price := by
      intro h
      rw [(cmpRat_eq_iff a.price b.price).mpr h] at hc
      exact absurd hc (by simp)
    have hgt : b.price < a.price := by
      rcases lt_trichotomy a.price b.price with h | h | h
      · exact absurd h h1
      · exact absurd h h2
      · exact h
    simp [hgt]

/-- C7 (amended): the per-side comparator of `impl Ord for Order` compares
a Sell by ascending price then ascending timestamp and a Buy by descending
price then ascending timestamp, with NO id tiebreaker: two orders compare
equal exactly when their price and timestamp coincide, whatever their ids. -/
theorem order_cmp_characterization (a b : Order) :
    (Order.cmp a b = .eq ↔ a.price = b.price ∧ a.ts = b.ts) ∧
    (a.order_type = OrderType.sell →
      (Order.cmp a b = .lt ↔
        a.price < b.price ∨ (a.price = b.price ∧ a.ts < b.ts))) ∧
    (a.order_type = OrderType.buy →
      (Order.cmp a b = .lt ↔
        b.price < a.price ∨ (a.price = b.price ∧ a.ts < b.ts))) :=
  ⟨Order.cmp_eq_iff a b, Order.cmp_lt_iff_sell a b, Order.cmp_lt_iff_buy a b⟩

/-- C7 counterexample: two distinct buy orders with the same price and
timestamp but different ids compare equal, refuting equality-iff-identity. -/
theorem distinct_orders_compare_equal :
    Order.cmp (Order.buy 1 5 10 2) (Order.buy 2 5 10 2) = .eq ∧
      Order.buy 1 5 10 2 ≠ Order.buy 2 5 10 2 := by
  refine ⟨(Order.cmp_eq_iff _ _).mpr ⟨rfl, rfl⟩, ?_⟩
  intro h
  exact absurd (congrArg Order.id h) (by decide)

/-! ## Index and book helper lemmas -/

theorem notMem_btreeRemove_self (o : Order) (l : List Order) :
    o ∉ btreeRemove o l := by
  intro h
  have := (List.mem_filter.mp h).2
  rw [Order.cmp_refl] at this
  exact absurd this (by simp)

theorem indexLookup_indexRemove_self (id : Nat) (ix : Index) :
    indexLookup id (indexRemove id ix) = none := by
  induction ix with
  | nil => rfl
  | cons p rest ih =>
    by_cases h : p.1 = id
    · simpa [indexRemove, h] using ih
    · simpa [indexRemove, indexLookup, h] using ih

/-- C8 (confirmed): `process_cancel_order`.  For an id present in exactly the
sell (resp. buy) index, the stored order is removed from that side's
collection and index, the other side is untouched, and a single `Canceled`
event carrying the stored order is batched; for an id in neither index a
single `Rejected` event is batched and the book is unchanged; and cancelling
the same id again after a successful cancel yields the `Rejected` batch, so
two cancels of one id give one `Canceled` then one `Rejected`. -/
theorem cancel_order_spec (b : OrderBook) (ts ts2 id : Nat) :
    (∀ o, indexLookup id b.sell_index = some o →
      indexLookup id b.buy_index = none →
      processCancelOrder ts id b =
        some ([Event.canceled ts o],
          ⟨btreeRemove o b.sell_book, indexRemove id b.sell_index,
            b.buy_book, b.buy_index⟩) ∧
      o ∉ btreeRemove o b.sell_book ∧
      indexLookup id (indexRemove id b.sell_index) = none ∧
      processCancelOrder ts2 id
        ⟨btreeRemove o b.sell_book, indexRemove id b.sell_index,
          b.buy_book, b.buy_index⟩ =
        some ([Event.rejected ts2 (notFoundReason id)],
          ⟨btreeRemove o b.sell_book, indexRemove id b.sell_index,
            b.buy_book, b.buy_index⟩)) ∧
    (∀ o, indexLookup id b.sell_index = none →
      indexLookup id b.buy_index = some o →
      processCancelOrder ts id b =
        some ([Event.canceled ts o],
          ⟨b.sell_book, b.sell_index,
            btreeRemove o b.buy_book, indexRemove id b.buy_index⟩) ∧
      o ∉ btreeRemove o b.buy_book ∧
      indexLookup id (indexRemove id b.buy_index) = none ∧
      processCancelOrder ts2 id
        ⟨b.sell_book, b.sell_index,
          btreeRemove o b.buy_book, indexRemove id b.buy_index⟩ =
        some ([Event.rejected ts2 (notFoundReason id)],
          ⟨b.sell_book, b.sell_index,
            btreeRemove o b.buy_book, indexRemove id b.buy_index⟩)) ∧
    (indexLookup id b.sell_index = none →
      indexLookup id b.buy_index = none →
      processCancelOrder ts id b =
        some ([Event.rejected ts (notFoundReason id)], b)) := by
  refine ⟨?_, ?_, ?_⟩
  · intro o h1 h2
    refine ⟨by simp [processCancelOrder, h1, h2], notMem_btreeRemove_self o _,
      indexLookup_indexRemove_self id _, ?_⟩
    simp [processCancelOrder, indexLookup_indexRemove_self, h2]
  · intro o h1 h2
    refine ⟨by simp [processCancelOrder, h1, h2], notMem_btreeRemove_self o _,
      indexLookup_indexRemove_self id _, ?_⟩
    simp [processCancelOrder, indexLookup_indexRemove_self, h1]
  · intro h1 h2
    simp [processCancelOrder, h1, h2]

/-- C8 witness: a concrete run of both cases on a one-order book. -/
theorem cancel_order_spec_witness :
    processCancelOrder 3 7 ⟨[Order.sell 7 0 5 2], [(7, Order.sell 7 0 5 2)], [], []⟩ =
      some ([Event.canceled 3 (Order.sell 7 0 5 2)],
        ⟨btreeRemove (Order.sell 7 0 5 2) [Order.sell 7 0 5 2],
          indexRemove 7 [(7, Order.sell 7 0 5 2)], [], []⟩) ∧
    processCancelOrder 4 7
      ⟨btreeRemove (Order.sell 7 0 5 2) [Order.sell 7 0 5 2],
        indexRemove 7 [(7, Order.sell 7 0 5 2)], [], []⟩ =
      some ([Event.rejected 4 (notFoundReason 7)],
        ⟨btreeRemove (Order.sell 7 0 5 2) [Order.sell 7 0 5 2],
          indexRemove 7 [(7, Order.sell 7 0 5 2)], [], []⟩) := by
  have h := (cancel_order_spec
    ⟨[Order.sell 7 0 5 2], [(7, Order.sell 7 0 5 2)], [], []⟩ 3 4 7).1
    (Order.sell 7 0 5 2) (by simp [indexLookup]) rfl
  exact ⟨h.1, h.2.2.2⟩

/-- C9 (confirmed): the event→row conversion of the persistence adapter
succeeds for exactly the Accepted, Filled and Canceled variants and the rows
`save_events` writes carry event-type "buy"/"sell" by the side of an
Accepted event, "fill" for Filled and "cancel" for Canceled; Rejected and
State events produce no row. -/
theorem save_events_persists_exactly (es : List Event) :
    (saveEventRows es).map EventRow.event_type = es.filterMap expectedEventType ∧
    (saveEventRows es).length = (es.filter isPersisted).length := by
  induction es with
  | nil => exact ⟨rfl, rfl⟩
  | cons e rest ih =>
    cases e with
    | filled ts o c =>
      simpa [saveEventRows, eventRowTryFrom, expectedEventType, isPersisted,
        List.filterMap_cons] using ih
    | accepted ts o =>
      cases ho : o.order_type <;>
        simpa [saveEventRows, eventRowTryFrom, expectedEventType, isPersisted,
          List.filterMap_cons, ho] using ih
    | canceled ts o =>
      simpa [saveEventRows, eventRowTryFrom, expectedEventType, isPersisted,
        List.filterMap_cons] using ih
    | rejected ts r =>
      simpa [saveEventRows, eventRowTryFrom, expectedEventType, isPersisted,
        List.filterMap_cons] using ih
    | state bs ss =>
      simpa [saveEventRows, eventRowTryFrom, expectedEventType, isPersisted,
        List.filterMap_cons] using ih

/-! ## Concrete runs exhibiting the divergences from the spec -/

/-- C1 (code_bug): with one sell resting at price 2, an incoming buy at
price 3 satisfies the spec's crossing predicate (buy price 3 ≥ ask 2), yet
the engine's guard `order.price <= counterpart.price` fails, so the command
produces no `Filled` event: the buy is inserted on the buy side (and the
popped sell head is even dropped from the sell collection). -/
theorem buy_above_ask_does_not_match :
    ((process 0 1 OrderBook.empty (Command.sell 5 2)).bind fun r =>
      process 1 2 r.2 (Command.buy 5 3)) =
    some ([Event.accepted 1 (Order.buy 2 1 5 3)],
      ⟨[], [(1, Order.sell 1 0 5 2)], [Order.buy 2 1 5 3],
        [(2, Order.buy 2 1 5 3)]⟩) := by
  norm_num [process, processSellOrder, processBuyOrder, processOrder,
    btreeInsert, btreeRemove, indexInsert, indexRemove, indexLookup,
    Order.buy, Order.sell, OrderBook.empty, cmpNat, cmpRat, Order.cmp,
    reverseOrd, Option.bind]

/-- C2 (code_bug): with one buy resting at price 2, an incoming sell at
price 3 does not cross, so the spec requires the buy side to be left
untouched; the engine's `pop_first` removes the buy head and the
non-crossing arm never restores it, so the buy collection ends empty while
the buy index still holds the order. -/
theorem noncrossing_sell_drops_buy_head :
    ((process 0 1 OrderBook.empty (Command.buy 5 2)).bind fun r =>
      process 1 2 r.2 (Command.sell 5 3)) =
    some ([Event.accepted 1 (Order.sell 2 1 5 3)],
      ⟨[Order.sell 2 1 5 3], [(2, Order.sell 2 1 5 3)], [],
        [(1, Order.buy 1 0 5 2)]⟩) := by
  norm_num [process, processSellOrder, processBuyOrder, processOrder,
    btreeInsert, btreeRemove, indexInsert, indexRemove, indexLookup,
    Order.buy, Order.sell, OrderBook.empty, cmpNat, cmpRat, Order.cmp,
    reverseOrd, Option.bind]

/-- C3 (code_bug): an exact fill (sell 5@2 then buy 5@2) leaves the sell
collection empty but the consumed order still in the sell index — the Equal
arm of `process_order` never removes the popped head's id from the
counterpart index — so index size 1 differs from collection size 0. -/
theorem exact_fill_leaves_stale_index :
    runCommands [(0, 1, Command.sell 5 2), (1, 2, Command.buy 5 2)]
      OrderBook.empty =
      some ⟨[], [(1, Order.sell 1 0 5 2)], [], []⟩ ∧
    ([(1, Order.sell 1 0 5 2)] : Index).length ≠
      ([] : List Order).length := by
  constructor
  · norm_num [runCommands, process, processSellOrder, processBuyOrder,
      processOrder, btreeInsert, btreeRemove, indexInsert, indexRemove,
      indexLookup, Order.buy, Order.sell, OrderBook.empty, cmpNat, cmpRat,
      Order.cmp, reverseOrd]
  · decide

/-- C6 (code_bug): after Sell 1@2, Sell 1@3, Buy 1@4 the book holds a buy at
price 4 against a sell at price 3 — a crossing pair (the buy at 4 failed the
engine's inverted guard against the ask at 2, rested, and the ask at 2 was
dropped), refuting the no-crossing invariant. -/
theorem crossed_book_after_commands :
    runCommands
      [(0, 1, Command.sell 1 2), (1, 2, Command.sell 1 3),
        (2, 3, Command.buy 1 4)] OrderBook.empty =
      some ⟨[Order.sell 2 1 1 3], [(2, Order.sell 2 1 1 3), (1, Order.sell 1 0 1 2)],
        [Order.buy 3 2 1 4], [(3, Order.buy 3 2 1 4)]⟩ ∧
    noCrossing ⟨[Order.sell 2 1 1 3], [(2, Order.sell 2 1 1 3), (1, Order.sell 1 0 1 2)],
        [Order.buy 3 2 1 4], [(3, Order.buy 3 2 1 4)]⟩ = false := by
  constructor
  · norm_num [runCommands, process, processSellOrder, processBuyOrder,
      processOrder, btreeInsert, btreeRemove, indexInsert, indexRemove,
      indexLookup, Order.buy, Order.sell, OrderBook.empty, cmpNat, cmpRat,
      Order.cmp, reverseOrd]
  · norm_num [noCrossing, bestBuyPrice, bestSellPrice, Order.buy, Order.sell]

/-- C4 counterexample: sell 5@2 rests, buy 10@2 arrives; the emitted
`Filled` carries the incoming with its full quantity 10, not the claimed
consumed portion 5 — and the pre-trade counterpart (5@2). -/
theorem filled_event_full_quantity_cx :
    ((process 0 1 OrderBook.empty (Command.sell 5 2)).bind fun r =>
      process 1 2 r.2 (Command.buy 10 2)).map Prod.fst =
    some [Event.accepted 1 (Order.buy 2 1 10 2),
      Event.filled 1 (Order.buy 2 1 10 2) (Order.sell 1 0 5 2),
      Event.accepted 1 (Order.buy 2 1 5 2)] ∧
    (Order.buy 2 1 10 2).quantity ≠ (Order.sell 1 0 5 2).quantity := by
  constructor
  · norm_num [process, processSellOrder, processBuyOrder, processOrder,
      btreeInsert, btreeRemove, indexInsert, indexRemove, indexLookup,
      Order.buy, Order.sell, OrderBook.empty, cmpNat, cmpRat, Order.cmp,
      reverseOrd, Option.bind]
  · decide

/-- C5 counterexample: two sells 5@2 rest; a buy 10@2 sweeps both, its
remainder, fully consumed by the second sell, still gets an `Accepted`
event: the batch holds two `Accepted` events although no remainder rests
(both final books are empty on the buy side). -/
theorem consumed_remainder_still_accepted_cx :
    ((runCommands [(0, 1, Command.sell 5 2), (1, 2, Command.sell 5 2)]
        OrderBook.empty).bind fun b2 =>
      process 2 3 b2 (Command.buy 10 2)).map
        (fun r => (r.1, countAccepted r.1, r.2.buy_book)) =
    some ([Event.accepted 2 (Order.buy 3 2 10 2),
      Event.filled 2 (Order.buy 3 2 10 2) (Order.sell 1 0 5 2),
      Event.accepted 2 (Order.buy 3 2 5 2),
      Event.filled 2 (Order.buy 3 2 5 2) (Order.sell 2 1 5 2)], 2, []) := by
  norm_num [runCommands, process, processSellOrder, processBuyOrder,
    processOrder, btreeInsert, btreeRemove, indexInsert, indexRemove,
    indexLookup, Order.buy, Order.sell, OrderBook.empty, cmpNat, cmpRat,
    Order.cmp, reverseOrd, Option.bind, countAccepted, List.filter]

/-- C10 counterexample: the engine performs no positivity validation — a
Buy command with quantity 0 and price 0 mints an order with quantity 0 and
price 0 that rests in the buy book. -/
theorem zero_quantity_order_rests :
    process 0 1 OrderBook.empty (Command.buy 0 0) =
      some ([Event.accepted 0 (Order.buy 1 0 0 0)],
        ⟨[], [], [Order.buy 1 0 0 0], [(1, Order.buy 1 0 0 0)]⟩) ∧
    ¬ posOrder (Order.buy 1 0 0 0) := by
  constructor
  · norm_num [process, processBuyOrder, processOrder, btreeInsert,
      indexInsert, indexRemove, Order.buy, OrderBook.empty]
  · intro h
    exact absurd h.1 (by decide)

/-! ## Accepted events per recursion level (C5) -/

theorem cmpNat_gt_iff (a b : Nat) : cmpNat a b = .gt ↔ b < a := by
  unfold cmpNat
  split_ifs with h1 h2 <;> simp <;> omega

/-- C5 (amended): a Buy/Sell batch carries one `Accepted` for the original
incoming plus one `Accepted` for every remainder created by a Greater-arm
partial fill — emitted at the start of the recursive call, whether or not
that remainder finally rests: the number of `Accepted` events always equals
one plus the number of `Filled` events whose counterpart quantity is below
the order quantity. -/
theorem accepted_once_per_level (ts : Nat) (o : Order) (cb : List Order)
    (ci : Index) (sb : List Order) (si : Index) :
    countAccepted (processOrder ts o cb ci sb si).events =
      1 + countGreaterFills (processOrder ts o cb ci sb si).events := by
  induction o, cb, ci, sb, si using processOrder.induct with
  | ts => exact ts
  | case1 o ci sb si =>
    simp [processOrder_nil, countAccepted, countGreaterFills]
  | case2 o ci sb si y ys h hq =>
    have hlt : o.quantity < y.quantity := (cmpNat_lt_iff _ _).mp hq
    have hnot : ¬ y.quantity < o.quantity := by omega
    simp [processOrder_lt ts o y ys ci sb si h hlt, countAccepted,
      countGreaterFills, hnot]
  | case3 o ci sb si y ys h hq no ih =>
    have hgt : y.quantity < o.quantity := (cmpNat_gt_iff _ _).mp hq
    have hno : no = ⟨o.order_type, o.id, o.ts, o.quantity - y.quantity, o.price⟩ :=
      rfl
    rw [hno] at ih
    rw [processOrder_gt ts o y ys ci sb si h hgt]
    simp only [countAccepted, countGreaterFills] at ih ⊢
    simp [List.filter_cons, hgt]
    omega
  | case4 o ci sb si y ys h hq =>
    have heq : o.quantity = y.quantity := (cmpNat_eq_iff _ _).mp hq
    have hnot : ¬ y.quantity < o.quantity := by omega
    simp [processOrder_eqQty ts o y ys ci sb si h heq, countAccepted,
      countGreaterFills, hnot]
  | case5 o ci sb si y ys h =>
    simp [processOrder_noCross ts o y ys ci sb si h, countAccepted,
      countGreaterFills]

/-! ## Shape of a Greater-arm Filled event (C4) -/

/-- C4 (amended): when the incoming quantity exceeds the head quantity, the
emitted pair is `Accepted` for the incoming followed by `Filled` whose
`order` field is the incoming at its FULL current remaining quantity (its
id/ts/side/price unchanged, quantity not clamped to the head's) and whose
`counterpart` field is the popped head at its pre-trade quantity. -/
theorem filled_greater_records_pretrade (ts : Nat) (o c : Order)
    (rest : List Order) (ci : Index) (sb : List Order) (si : Index)
    (h1 : o.price ≤ c.price) (h2 : c.quantity < o.quantity) :
    (processOrder ts o (c :: rest) ci sb si).events.take 2 =
      [Event.accepted ts o, Event.filled ts o c] := by
  rw [processOrder_gt ts o c rest ci sb si h1 h2]
  rfl

/-- C4 witness: the shape theorem applied at a concrete crossing pair
(incoming buy 10@2 against resting sell 5@2). -/
theorem filled_greater_records_pretrade_witness :
    (processOrder 0 (Order.buy 1 0 10 2) [Order.sell 9 0 5 2] [] [] []).events.take 2 =
      [Event.accepted 0 (Order.buy 1 0 10 2),
        Event.filled 0 (Order.buy 1 0 10 2) (Order.sell 9 0 5 2)] :=
  filled_greater_records_pretrade 0 (Order.buy 1 0 10 2) (Order.sell 9 0 5 2)
    [] [] [] [] (by decide) (by decide)

/-! ## Positivity preservation (C10) -/

theorem posList_btreeRemove (q : Order) (l : List Order) (hl : posList l) :
    posList (btreeRemove q l) :=
  fun o ho => hl o (List.mem_of_mem_filter ho)

theorem posList_btreeInsert (x : Order) (hx : posOrder x) :
    ∀ l : List Order, posList l → posList (btreeInsert x l) := by
  intro l
  induction l with
  | nil =>
    intro _ o ho
    simp only [btreeInsert, List.mem_singleton] at ho
    exact ho ▸ hx
  | cons y ys ih =>
    intro hl o ho
    unfold btreeInsert at ho
    rcases hcmp : Order.cmp x y with _ | _ | _ <;> rw [hcmp] at ho <;>
      simp only [List.mem_cons] at ho
    · rcases ho with ho | ho | ho
      · exact ho ▸ hx
      · exact ho ▸ hl y (List.mem_cons_self y ys)
      · exact hl o (List.mem_cons_of_mem y ho)
    · rcases ho with ho | ho
      · exact ho ▸ hl y (List.mem_cons_self y ys)
      · exact hl o (List.mem_cons_of_mem y ho)
    · rcases ho with ho | ho
      · exact ho ▸ hl y (List.mem_cons_self y ys)
      · exact ih (fun z hz => hl z (List.mem_cons_of_mem y hz)) o ho

theorem processOrder_pos (ts : Nat) (o : Order) (cb : List Order)
    (ci : Index) (sb : List Order) (si : Index) :
    posOrder o → posList cb → posList sb →
      posList (processOrder ts o cb ci sb si).cpBook ∧
      posList (processOrder ts o cb ci sb si).srcBook := by
  induction o, cb, ci, sb, si using processOrder.induct with
  | ts => exact ts
  | case1 o ci sb si =>
    intro ho _ hsb
    rw [processOrder_nil]
    exact ⟨fun x hx => absurd hx (List.not_mem_nil x),
      posList_btreeInsert o ho sb hsb⟩
  | case2 o ci sb si y ys h hq =>
    intro ho hcb hsb
    have hlt : o.quantity < y.quantity := (cmpNat_lt_iff _ _).mp hq
    rw [processOrder_lt ts o y ys ci sb si h hlt]
    refine ⟨posList_btreeInsert _ ?_ ys
      (fun z hz => hcb z (List.mem_cons_of_mem y hz)), hsb⟩
    exact ⟨by
      have := (hcb y (List.mem_cons_self y ys)).1
      simp only []
      omega, (hcb y (List.mem_cons_self y ys)).2⟩
  | case3 o ci sb si y ys h hq no ih =>
    intro ho hcb hsb
    have hgt : y.quantity < o.quantity := (cmpNat_gt_iff _ _).mp hq
    have hno : no = ⟨o.order_type, o.id, o.ts, o.quantity - y.quantity, o.price⟩ :=
      rfl
    rw [hno] at ih
    rw [processOrder_gt ts o y ys ci sb si h hgt]
    exact ih ⟨by simp only []; omega, ho.2⟩
      (posList_btreeRemove o ys (fun z hz => hcb z (List.mem_cons_of_mem y hz)))
      hsb
  | case4 o ci sb si y ys h hq =>
    intro ho hcb hsb
    have heq : o.quantity = y.quantity := (cmpNat_eq_iff _ _).mp hq
    rw [processOrder_eqQty ts o y ys ci sb si h heq]
    exact ⟨fun z hz => hcb z (List.mem_cons_of_mem y hz), hsb⟩
  | case5 o ci sb si y ys h =>
    intro ho hcb hsb
    rw [processOrder_noCross ts o y ys ci sb si h]
    exact ⟨fun z hz => hcb z (List.mem_cons_of_mem y hz),
      posList_btreeInsert o ho sb hsb⟩

theorem processBuyOrder_pos (ts : Nat) (b : OrderBook) (o : Order)
    (ho : posOrder o) (hb : posBook b) :
    posBook (processBuyOrder ts b o).2 := by
  have h := processOrder_pos ts o b.sell_book b.sell_index b.buy_book
    b.buy_index ho hb.1 hb.2
  exact ⟨h.1, h.2⟩

theorem processSellOrder_pos (ts : Nat) (b : OrderBook) (o : Order)
    (ho : posOrder o) (hb : posBook b) :
    posBook (processSellOrder ts b o).2 := by
  have h := processOrder_pos ts o b.buy_book b.buy_index b.sell_book
    b.sell_index ho hb.2 hb.1
  exact ⟨h.2, h.1⟩

theorem processCancelOrder_pos (ts id : Nat) (b : OrderBook)
    (ev : List Event) (b1 : OrderBook) (hb : posBook b)
    (h : processCancelOrder ts id b = some (ev, b1)) : posBook b1 := by
  rcases hs : indexLookup id b.sell_index with _ | so <;>
    rcases hb2 : indexLookup id b.buy_index with _ | bo <;>
      simp only [processCancelOrder, hs, hb2, Option.some.injEq,
        Prod.mk.injEq, reduceCtorEq] at h
  · exact h.2 ▸ hb
  · exact h.2 ▸ ⟨hb.1, posList_btreeRemove bo b.buy_book hb.2⟩
  · exact h.2 ▸ ⟨posList_btreeRemove so b.sell_book hb.1, hb.2⟩

theorem process_pos (ts freshId : Nat) (b : OrderBook) (c : Command)
    (ev : List Event) (b1 : OrderBook) (hc : cmdPositive c) (hb : posBook b)
    (h : process ts freshId b c = some (ev, b1)) : posBook b1 := by
  cases c with
  | buy q p =>
    simp only [process, Option.some.injEq] at h
    have hfin : (processBuyOrder ts b (Order.buy freshId ts q p)).2 = b1 :=
      congrArg Prod.snd h
    exact hfin ▸ processBuyOrder_pos ts b _ ⟨hc.1, hc.2⟩ hb
  | sell q p =>
    simp only [process, Option.some.injEq] at h
    have hfin : (processSellOrder ts b (Order.sell freshId ts q p)).2 = b1 :=
      congrArg Prod.snd h
    exact hfin ▸ processSellOrder_pos ts b _ ⟨hc.1, hc.2⟩ hb
  | cancel id =>
    exact processCancelOrder_pos ts id b ev b1 hb h
  | update id nq np =>
    rcases hs : indexLookup id b.sell_index with _ | so <;>
      rcases hb2 : indexLookup id b.buy_index with _ | bo <;>
        simp only [process, processUpdateOrder, hs, hb2] at h
    · simp only [Option.some.injEq, Prod.mk.injEq] at h
      exact h.2 ▸ hb
    · rcases hcan : processCancelOrder ts id b with _ | p1 <;>
        rw [hcan] at h
      · exact absurd h (by simp)
      · simp only [Option.some.injEq, Prod.mk.injEq] at h
        have hmid : posBook p1.2 :=
          processCancelOrder_pos ts id b p1.1 p1.2 hb (by rw [hcan])
        exact h.2 ▸ processBuyOrder_pos ts p1.2 _ ⟨hc.1, hc.2⟩ hmid
    · rcases hcan : processCancelOrder ts id b with _ | p1 <;>
        rw [hcan] at h
      · exact absurd h (by simp)
      · simp only [Option.some.injEq, Prod.mk.injEq] at h
        have hmid : posBook p1.2 :=
          processCancelOrder_pos ts id b p1.1 p1.2 hb (by rw [hcan])
        exact h.2 ▸ processSellOrder_pos ts p1.2 _ ⟨hc.1, hc.2⟩ hmid
    · exact absurd h (by simp)
  | getState =>
    simp only [process, Option.some.injEq, Prod.mk.injEq] at h
    exact h.2 ▸ hb

theorem runCommands_pos (cmds : List (Nat × Nat × Command)) :
    ∀ b0 b : OrderBook, posBook b0 → (∀ x ∈ cmds, cmdPositive x.2.2) →
      runCommands cmds b0 = some b → posBook b := by
  induction cmds with
  | nil =>
    intro b0 b h0 _ h
    simp only [runCommands, Option.some.injEq] at h
    exact h ▸ h0
  | cons x rest ih =>
    intro b0 b h0 hall h
    obtain ⟨ts, freshId, c⟩ := x
    rcases hp : process ts freshId b0 c with _ | p1 <;>
      simp only [runCommands, hp] at h
    · exact absurd h (by simp)
    · exact ih p1.2 b
        (process_pos ts freshId b0 c p1.1 p1.2
          (hall _ (List.mem_cons_self _ _)) h0 (by rw [hp]))
        (fun y hy => hall y (List.mem_cons_of_mem _ hy)) h

/-- C10 (amended): the engine itself validates nothing, but positivity is
preserved: if every Buy, Sell and Update command in a run supplies strictly
positive quantity and price, then every order resting in either side
collection after the run has strictly positive quantity and price (partial
fills replace an order by one of quantity `big - small > 0` at the same
price). -/
theorem positive_commands_keep_book_positive
    (cmds : List (Nat × Nat × Command)) (b : OrderBook)
    (hpos : ∀ x ∈ cmds, cmdPositive x.2.2)
    (hrun : runCommands cmds OrderBook.empty = some b) : posBook b :=
  runCommands_pos cmds OrderBook.empty b
    ⟨fun o ho => absurd ho (List.not_mem_nil o),
      fun o ho => absurd ho (List.not_mem_nil o)⟩ hpos hrun

/-- C10 witness: one positive buy command leaves a positive book. -/
theorem positive_commands_keep_book_positive_witness :
    posBook ⟨[], [], [Order.buy 1 0 1 2], [(1, Order.buy 1 0 1 2)]⟩ :=
  positive_commands_keep_book_positive [(0, 1, Command.buy 1 2)] _
    (by norm_num [cmdPositive])
    (by norm_num [runCommands, process, processBuyOrder, processOrder,
      btreeInsert, indexInsert, indexRemove, Order.buy, OrderBook.empty])
